import Mathlib

/-
  A shallow embedding of the bufferkvs hash table (src/unnamed/part_000,
  src/bufferkvs.h) and proofs about its operations.

  Modelling conventions:
  * C strings are represented by the list of their bytes strictly before
    the terminating zero byte (the extent `strlen` delimits).
  * 32-bit unsigned arithmetic is Nat arithmetic reduced modulo 2^32.
  * The external bufferqueue collaborator (bque_*) is not part of this
    repository; per the spec's Chain abstraction it is an ordered,
    index-addressable sequence with tail append, remove-at-index, size
    query, item-at and forward iteration with early stop, modelled as a
    Lean list of records in insertion order.
  * malloc nondeterminism is made explicit: an AllocPlan says which
    allocations of a call succeed, and bkvs_new receives the
    uninitialised contents of the freshly malloc'd bucket array.
-/

set_option linter.unusedVariables false

namespace BufferKVS

/-- Byte strings are modelled as lists of byte values. A C string is
represented by the list of its bytes strictly before the terminating
zero byte, which is the extent that `strlen` delimits. -/
abbrev Bytes := List Nat

/-- Modulus of 32-bit unsigned arithmetic. -/
def M32 : Nat := 4294967296

/-- Result codes, mirroring `enum _bkvs_res` in `bufferkvs.h`
(BKVS_OK, BKVS_ERR, BKVS_ERR_NO_MEM, BKVS_ERR_NO_KEY,
BKVS_ERR_ITER_STOP). -/
inductive Res where
  | ok
  | err
  | errNoMem
  | errNoKey
  | errIterStop
deriving DecidableEq, Repr

/-- djb2 hash, from `bkvs_hash_cb_djb2`: starts at 5381 and folds
`hash = ((hash << 5) + hash) + c` over the bytes before the terminator
in 32-bit unsigned arithmetic. The C loop `while ((c = *str++))` exits
when it reads the zero terminator, without folding it into the hash. -/
def bkvs_hash_cb_djb2 (str : Bytes) : Nat :=
  str.foldl (fun hash c => (((hash <<< 5) + hash) + c) % M32) 5381

/-- sdbm hash, from `bkvs_hash_cb_sdbm`: starts at 0 and folds
`hash = c + (hash << 6) + (hash << 16) - hash` over the bytes before
the terminator in 32-bit unsigned arithmetic; adding `M32` before the
subtraction realises the unsigned wrap-around. Like djb2, the loop
exits on the zero terminator without folding it. -/
def bkvs_hash_cb_sdbm (str : Bytes) : Nat :=
  str.foldl (fun hash c => (c + (hash <<< 6) + (hash <<< 16) + M32 - hash % M32) % M32) 0

/-- A stored key-value pair (`bkvs_pair`). The C struct's `key_size`
and `value_size` fields always hold the lengths of the owned buffers
(`create_pair` sets `key_size = strlen(key) + 1` and both value writers
set `value_size = size`), so they are represented implicitly:
`key_size = key.length + 1` and `value_size = value.length`. -/
structure Pair where
  key : Bytes
  value : Bytes
deriving DecidableEq, Repr

/-- A bucket's chain: the external ordered collection (`bque_ctx`),
modelled per the spec's Chain abstraction as the list of its records in
insertion order (`bque_enqueue` appends at the tail). -/
abbrev Chain := List Pair

/-- Contents of an optional chain slot; an absent chain holds no pairs. -/
def chainPairs (b : Option Chain) : Chain := b.getD []

/-- The table context `bkvs_ctx`: configuration (hash callback, bucket
count, advisory pair cap), the cached live pair count, and the bucket
array (a flexible array of optional chain handles). -/
structure Ctx where
  hash_cb : Bytes → Nat
  bucket_num : Nat
  pair_num_max : Nat
  pair_num : Nat
  buckets : List (Option Chain)

/-- The process-wide mutable lookup state `static bkvs_search_ctx
search_ctx = {0}`. `buff` models the `bque_buff` view of the matched
record: a pointer to the pair stored at position `j` of bucket `i`'s
chain is identified by the location `(i, j)`; the zero-initialised
`buff.ptr == NULL` is `none`. -/
structure SearchCtx where
  key : Bytes
  key_size : Nat
  bucket_idx : Nat
  pair_idx : Nat
  buff : Option (Nat × Nat)
deriving DecidableEq, Repr

/-- The zero-initialised value of the static `search_ctx`. -/
def searchCtx0 : SearchCtx :=
  { key := [], key_size := 0, bucket_idx := 0, pair_idx := 0, buff := none }

/-- The key comparison of `search_key_cb`: `pair->key_size` must equal
the query's `strlen(key) + 1`, and `memcmp` over those bytes (content
plus terminator) must be 0, i.e. the byte lists are equal. -/
def keyMatch (p : Pair) (key : Bytes) : Bool :=
  p.key.length + 1 == key.length + 1 && p.key == key

/-- The linear forward scan `bque_foreach(..., search_key_cb,
BQUE_ITER_FORWARD)`: index of the first entry whose key matches, if
any. -/
def searchChain : Chain → Bytes → Option Nat
  | [], _ => none
  | p :: rest, key =>
    if keyMatch p key then some 0 else (searchChain rest key).map (· + 1)

/-- Reading of bucket slot `i` (`ctx->buckets[i]`). -/
def bucketAt (ctx : Ctx) (i : Nat) : Option Chain := ctx.buckets.getD i none

/-- The Hash Router: `ctx->conf.hash_cb(key) % ctx->conf.bucket_num`. -/
def routeKey (ctx : Ctx) (key : Bytes) : Nat :=
  ctx.hash_cb key % ctx.bucket_num

/-- `search_key`: computes the bucket; a missing chain is an immediate
`BKVS_ERR_NO_KEY` with the static search state untouched. Otherwise
the query key and its size are written into the static state, the
chain is scanned, and on a match the callback stores the position and
record view before `bucket_idx` is stored; on a miss the previously
stored position, view and bucket index are left as residue. -/
def search_key (ctx : Ctx) (s : SearchCtx) (key : Bytes) : SearchCtx × Res :=
  let bucket_idx := routeKey ctx key
  match bucketAt ctx bucket_idx with
  | none => (s, Res.errNoKey)
  | some chain =>
    let s1 := { s with key := key, key_size := key.length + 1 }
    match searchChain chain key with
    | none => (s1, Res.errNoKey)
    | some j =>
      ({ s1 with pair_idx := j, buff := some (bucket_idx, j), bucket_idx := bucket_idx },
       Res.ok)

/-- Which allocations succeed during one `bkvs_put` call: the lazy
chain creation (`create_pair_que`), the key duplication and value
duplication inside `create_pair` (the latter flag also covers the
replacement-value `malloc` of the update path), and the record append
(`bque_enqueue`). -/
structure AllocPlan where
  chainAlloc : Bool
  keyAlloc : Bool
  valueAlloc : Bool
  enqueueAlloc : Bool
deriving DecidableEq, Repr

/-- The plan on which every allocation succeeds. -/
def allocOk : AllocPlan :=
  { chainAlloc := true, keyAlloc := true, valueAlloc := true, enqueueAlloc := true }

/-- `create_pair`: duplicates the key bytes, then the value bytes; if
either `malloc` fails the sibling allocation is released and the call
reports `BKVS_ERR_NO_MEM` (`none`). -/
def create_pair (key value : Bytes) (plan : AllocPlan) : Option Pair :=
  if !plan.keyAlloc then none
  else if !plan.valueAlloc then none
  else some { key := key, value := value }

/-- `bkvs_put`: search; on `BKVS_ERR_NO_KEY` lazily create the bucket's
chain, build the pair, append it and increment the pair count; on
`BKVS_OK` allocate the replacement value and overwrite the matched
pair's value in place through the stored record pointer. -/
def bkvs_put (ctx : Ctx) (s : SearchCtx) (key value : Bytes) (plan : AllocPlan) :
    Ctx × SearchCtx × Res :=
  match search_key ctx s key with
  | (s1, Res.errNoKey) =>
    let bucket_idx := routeKey ctx key
    let created : Option Ctx :=
      match bucketAt ctx bucket_idx with
      | none =>
        if plan.chainAlloc then
          some { ctx with buckets := ctx.buckets.set bucket_idx (some []) }
        else none
      | some _ => some ctx
    match created with
    | none => (ctx, s1, Res.errNoMem)
    | some ctx1 =>
      match create_pair key value plan with
      | none => (ctx1, s1, Res.errNoMem)
      | some pair =>
        if plan.enqueueAlloc then
          let chain := chainPairs (bucketAt ctx1 bucket_idx)
          ({ ctx1 with
              buckets := ctx1.buckets.set bucket_idx (some (chain ++ [pair])),
              pair_num := (ctx1.pair_num + 1) % M32 },
           s1, Res.ok)
        else (ctx1, s1, Res.errNoMem)
  | (s1, Res.ok) =>
    if plan.valueAlloc then
      match s1.buff with
      | some (bi, j) =>
        let chain := chainPairs (bucketAt ctx bi)
        match chain.get? j with
        | some p =>
          ({ ctx with
              buckets := ctx.buckets.set bi (some (chain.set j { p with value := value })) },
           s1, Res.ok)
        | none => (ctx, s1, Res.err)
      | none => (ctx, s1, Res.err)
    else (ctx, s1, Res.errNoMem)
  | (s1, r) => (ctx, s1, r)

/-- `bkvs_drop`: search; a miss returns unchanged. On a hit the pair's
allocations are freed, `bque_drop` removes the record at the stored
position (an invalid position is the collaborator's generic error, in
which case the count is not touched), then the pair count is
decremented. -/
def bkvs_drop (ctx : Ctx) (s : SearchCtx) (key : Bytes) : Ctx × SearchCtx × Res :=
  match search_key ctx s key with
  | (s1, Res.ok) =>
    let chain := chainPairs (bucketAt ctx s1.bucket_idx)
    if s1.pair_idx < chain.length then
      ({ ctx with
          buckets := ctx.buckets.set s1.bucket_idx (some (chain.eraseIdx s1.pair_idx)),
          pair_num := (ctx.pair_num + (M32 - 1)) % M32 },
       s1, Res.ok)
    else (ctx, s1, Res.err)
  | (s1, r) => (ctx, s1, r)

/-- `bkvs_has`: a pure existence probe, exactly `search_key`. -/
def bkvs_has (ctx : Ctx) (s : SearchCtx) (key : Bytes) : SearchCtx × Res :=
  search_key ctx s key

/-- `bkvs_get`: search; on success the output buffer is pointed at the
matched pair's value storage (a borrowed view, returned here as the
value bytes; its `size` field is their length). On a miss the output
buffer is not written (`none`). -/
def bkvs_get (ctx : Ctx) (s : SearchCtx) (key : Bytes) : SearchCtx × Res × Option Bytes :=
  match search_key ctx s key with
  | (s1, Res.ok) =>
    match s1.buff with
    | some (bi, j) =>
      match (chainPairs (bucketAt ctx bi)).get? j with
      | some p => (s1, Res.ok, some p.value)
      | none => (s1, Res.ok, none)
    | none => (s1, Res.ok, none)
  | (s1, r) => (s1, r, none)

/-- `bkvs_status`: reports the cached live pair count. -/
def bkvs_status (ctx : Ctx) : Nat := ctx.pair_num

/-- `bkvs_empty`: every existing chain has its pairs' allocations freed
and is destroyed, and the whole bucket array is `memset` back to empty.
The cached pair count is left untouched (the function has no write to
`ctx->cache.pair_num`). -/
def bkvs_empty (ctx : Ctx) : Ctx × Res :=
  ({ ctx with buckets := List.replicate ctx.bucket_num none }, Res.ok)

/-- Construction-time configuration `bkvs_conf`. -/
structure Conf where
  hash_cb : Option (Bytes → Nat)
  bucket_num : Nat
  pair_num_max : Nat

/-- `bkvs_new` on a successful allocation: configuration defaults are
applied (djb2, 128 buckets, cap 1024), then `memset(alloc_ctx, 0,
sizeof(bkvs_ctx))` zeroes only the fixed-size header - the flexible
`buckets[]` array keeps whatever bytes `malloc` returned, passed here
as `junk` (its cells reinterpreted as chain handles). -/
def bkvs_new (conf : Option Conf) (junk : List (Option Chain)) : Ctx :=
  let hash_cb :=
    match conf with
    | some c => c.hash_cb.getD bkvs_hash_cb_djb2
    | none => bkvs_hash_cb_djb2
  let bucket_num :=
    match conf with
    | some c => if c.bucket_num != 0 then c.bucket_num else 128
    | none => 128
  let pair_num_max :=
    match conf with
    | some c => c.pair_num_max
    | none => 1024
  { hash_cb := hash_cb, bucket_num := bucket_num, pair_num_max := pair_num_max,
    pair_num := 0,
    buckets := (junk ++ List.replicate bucket_num none).take bucket_num }

/-- Visitor callback type of `bkvs_foreach`: receives the key, the
borrowed value view, the running index and the total count. -/
abbrev Cb := Bytes → Bytes → Nat → Nat → Res

/-- One invocation of the foreach visitor: its four arguments. -/
structure Visit where
  key : Bytes
  value : Bytes
  idx : Nat
  num : Nat
deriving DecidableEq, Repr

/-- Applies a visitor callback to a recorded invocation. -/
def applyCb (cb : Cb) (v : Visit) : Res := cb v.key v.value v.idx v.num

/-- The inner loop of `bkvs_foreach` over one chain: items are fetched
by index in insertion order, the visitor is applied, and a
`BKVS_ERR_ITER_STOP` return halts immediately; otherwise the running
index advances by one per visit. Returns the invocations made and
whether the visitor stopped. -/
def foreachChain (cb : Cb) (num : Nat) : Chain → Nat → List Visit × Bool
  | [], _ => ([], false)
  | p :: rest, i0 =>
    if applyCb cb { key := p.key, value := p.value, idx := i0, num := num } == Res.errIterStop
    then ([{ key := p.key, value := p.value, idx := i0, num := num }], true)
    else
      let r := foreachChain cb num rest (i0 + 1)
      ({ key := p.key, value := p.value, idx := i0, num := num } :: r.1, r.2)

/-- The outer loop of `bkvs_foreach` over the bucket slots in slot
order; empty slots are skipped, a stop inside a chain aborts the whole
walk, and the running index carries over across buckets. -/
def foreachBuckets (cb : Cb) (num : Nat) : List (Option Chain) → Nat → List Visit × Bool
  | [], _ => ([], false)
  | b :: rest, i0 =>
    let c := chainPairs b
    let r := foreachChain cb num c i0
    if r.2 then r
    else
      let r2 := foreachBuckets cb num rest (i0 + c.length)
      (r.1 ++ r2.1, r2.2)

/-- `bkvs_foreach`, instrumented with the list of visitor invocations
it performs: walks every bucket from slot 0, passing the cached pair
count as the total, and returns `BKVS_ERR_ITER_STOP` when the visitor
stopped and `BKVS_OK` otherwise. -/
def bkvs_foreachT (ctx : Ctx) (cb : Cb) : List Visit × Res :=
  let r := foreachBuckets cb ctx.pair_num ctx.buckets 0
  (r.1, if r.2 then Res.errIterStop else Res.ok)

/-- `bkvs_foreach` proper: just the result code. -/
def bkvs_foreach (ctx : Ctx) (cb : Cb) : Res := (bkvs_foreachT ctx cb).2

/-- All stored pairs in visitation order: bucket slots in slot order,
chain entries in insertion order. -/
def allPairs (ctx : Ctx) : List Pair :=
  ctx.buckets.flatMap chainPairs

/-- Total number of stored pairs: the sum of the per-bucket chain
sizes. -/
def countPairs (ctx : Ctx) : Nat := (allPairs ctx).length

/-- Dimension sanity of a table: a positive bucket count and a bucket
array of exactly that length, as `bkvs_new` is supposed to establish. -/
def dims (ctx : Ctx) : Prop :=
  0 < ctx.bucket_num ∧ ctx.buckets.length = ctx.bucket_num

/-- Every stored pair sits in the bucket its key routes to. -/
def bucketsOK (ctx : Ctx) : Prop :=
  ∀ i < ctx.bucket_num, ∀ p ∈ chainPairs (bucketAt ctx i), routeKey ctx p.key = i

/-- Within each chain the stored keys are pairwise distinct. -/
def keysNodup (ctx : Ctx) : Prop :=
  ∀ i < ctx.bucket_num, ((chainPairs (bucketAt ctx i)).map Pair.key).Nodup

/-- The cached pair count agrees with the stored pairs and has not hit
the 32-bit wrap-around. -/
def countOK (ctx : Ctx) : Prop :=
  ctx.pair_num = countPairs ctx ∧ countPairs ctx < M32

/-- Well-formedness of a table state, as the spec's invariants intend
operations to maintain it. -/
def WF (ctx : Ctx) : Prop :=
  dims ctx ∧ bucketsOK ctx ∧ keysNodup ctx ∧ countOK ctx

/-- First matching pair of a chain for a query key, if any. -/
def foundPair (c : Chain) (key : Bytes) : Option Pair :=
  (searchChain c key).bind c.get?

section HelperLemmas

lemma getD_set_self (l : List (Option Chain)) (i : Nat) (x : Option Chain)
    (h : i < l.length) : (l.set i x).getD i none = x := by
  simp [List.getD_eq_getElem?_getD, List.getElem?_set_self', List.getElem?_eq_getElem h]

lemma getD_set_ne (l : List (Option Chain)) (i j : Nat) (x : Option Chain)
    (h : j ≠ i) : (l.set i x).getD j none = l.getD j none := by
  simp [List.getD_eq_getElem?_getD, List.getElem?_set_ne (fun hh => h hh.symm)]

lemma getD_some_lt (l : List (Option Chain)) (i : Nat) (c : Chain)
    (h : l.getD i none = some c) : i < l.length := by
  by_contra hge
  rw [List.getD_eq_getElem?_getD, List.getElem?_eq_none (by omega)] at h
  simp at h

lemma get?_set_self (c : Chain) (j : Nat) (x : Pair) (h : j < c.length) :
    (c.set j x).get? j = some x := by
  simp [List.get?_eq_getElem?, List.getElem?_set_self', List.getElem?_eq_getElem h]

lemma get?_append_length (c : Chain) (p : Pair) :
    (c ++ [p]).get? c.length = some p := by
  induction c with
  | nil => rfl
  | cons q rest ih =>
    simp only [List.cons_append, List.length_cons, List.get?_cons_succ]
    exact ih

lemma keyMatch_iff (p : Pair) (key : Bytes) : keyMatch p key = true ↔ p.key = key := by
  simp only [keyMatch, Bool.and_eq_true, beq_iff_eq]
  constructor
  · rintro ⟨-, h⟩; exact h
  · intro h; subst h; exact ⟨rfl, rfl⟩

lemma keyMatch_congr (p q : Pair) (key : Bytes) (h : p.key = q.key) :
    keyMatch p key = keyMatch q key := by
  simp [keyMatch, h]

lemma searchChain_eq_none_iff (c : Chain) (key : Bytes) :
    searchChain c key = none ↔ ∀ p ∈ c, keyMatch p key = false := by
  induction c with
  | nil => simp [searchChain]
  | cons q rest ih =>
    by_cases hq : keyMatch q key
    · simp [searchChain, hq]
    · simp [searchChain, hq, ih]

lemma searchChain_some (c : Chain) (key : Bytes) (j : Nat)
    (h : searchChain c key = some j) :
    ∃ p, c.get? j = some p ∧ keyMatch p key = true := by
  induction c generalizing j with
  | nil => simp [searchChain] at h
  | cons q rest ih =>
    by_cases hq : keyMatch q key
    · simp only [searchChain, if_pos hq, Option.some.injEq] at h
      subst h
      exact ⟨q, rfl, hq⟩
    · simp only [searchChain, if_neg hq, Option.map_eq_some'] at h
      obtain ⟨i, hi, rfl⟩ := h
      obtain ⟨p, hp, hm⟩ := ih i hi
      exact ⟨p, by simpa using hp, hm⟩

lemma searchChain_some_lt (c : Chain) (key : Bytes) (j : Nat)
    (h : searchChain c key = some j) : j < c.length := by
  obtain ⟨p, hp, -⟩ := searchChain_some c key j h
  exact List.get?_eq_some.mp hp |>.choose

lemma searchChain_append_ofNone (c : Chain) (p : Pair) (key : Bytes)
    (hc : searchChain c key = none) (hp : keyMatch p key = true) :
    searchChain (c ++ [p]) key = some c.length := by
  induction c with
  | nil => simp [searchChain, hp]
  | cons q rest ih =>
    by_cases hq : keyMatch q key
    · simp [searchChain, if_pos hq] at hc
    · simp only [searchChain, if_neg hq, Option.map_eq_none'] at hc
      simp only [List.cons_append, searchChain, if_neg hq, List.length_cons]
      rw [show rest.append [p] = rest ++ [p] from rfl, ih hc]
      rfl

lemma searchChain_keys_congr (c d : Chain) (key : Bytes)
    (h : c.map Pair.key = d.map Pair.key) :
    searchChain c key = searchChain d key := by
  induction c generalizing d with
  | nil =>
    cases d with
    | nil => rfl
    | cons q2 rest2 => simp at h
  | cons q rest ih =>
    cases d with
    | nil => simp at h
    | cons q2 rest2 =>
      simp only [List.map_cons, List.cons.injEq] at h
      obtain ⟨h1, h2⟩ := h
      simp only [searchChain, keyMatch_congr q q2 key h1, ih rest2 h2]

lemma map_key_set (c : Chain) (j : Nat) (p : Pair) (v : Bytes)
    (hj : c.get? j = some p) :
    (c.set j { key := p.key, value := v }).map Pair.key = c.map Pair.key := by
  induction c generalizing j with
  | nil => simp
  | cons q rest ih =>
    cases j with
    | zero =>
      simp only [List.get?_cons_zero, Option.some.injEq] at hj
      subst hj
      simp
    | succ i =>
      simp only [List.get?_cons_succ] at hj
      simp [ih i hj]

lemma foundPair_cons_miss (q : Pair) (rest : Chain) (key : Bytes)
    (hq : keyMatch q key = false) :
    foundPair (q :: rest) key = foundPair rest key := by
  simp only [foundPair, searchChain, hq, Bool.false_eq_true, if_false]
  cases hs : searchChain rest key with
  | none => simp
  | some i => simp

lemma foundPair_cons_hit (q : Pair) (rest : Chain) (key : Bytes)
    (hq : keyMatch q key = true) :
    foundPair (q :: rest) key = some q := by
  simp [foundPair, searchChain, hq]

lemma foundPair_eraseIdx (c : Chain) (j : Nat) (p : Pair) (key2 : Bytes)
    (hj : c.get? j = some p) (hm : keyMatch p key2 = false) :
    foundPair (c.eraseIdx j) key2 = foundPair c key2 := by
  induction c generalizing j with
  | nil => simp at hj
  | cons q rest ih =>
    cases j with
    | zero =>
      simp only [List.get?_cons_zero, Option.some.injEq] at hj
      subst hj
      rw [List.eraseIdx_cons_zero, foundPair_cons_miss q rest key2 hm]
    | succ i =>
      simp only [List.get?_cons_succ] at hj
      rw [List.eraseIdx_cons_succ]
      by_cases hq : keyMatch q key2
      · rw [foundPair_cons_hit q _ key2 hq, foundPair_cons_hit q _ key2 hq]
      · have hq2 : keyMatch q key2 = false := by simpa using hq
        rw [foundPair_cons_miss q _ key2 hq2, foundPair_cons_miss q _ key2 hq2, ih i hj]

lemma searchChain_eraseIdx_first (c : Chain) (key : Bytes) (j : Nat)
    (hnd : (c.map Pair.key).Nodup) (hj : searchChain c key = some j) :
    searchChain (c.eraseIdx j) key = none := by
  induction c generalizing j with
  | nil => simp [searchChain] at hj
  | cons q rest ih =>
    simp only [List.map_cons, List.nodup_cons] at hnd
    obtain ⟨hqnot, hndrest⟩ := hnd
    by_cases hq : keyMatch q key
    · simp only [searchChain, if_pos hq, Option.some.injEq] at hj
      subst hj
      simp only [List.eraseIdx_cons_zero]
      rw [searchChain_eq_none_iff]
      intro p hp
      by_contra hcon
      have hpk : p.key = key := (keyMatch_iff p key).mp (by simpa using hcon)
      have hqk : q.key = key := (keyMatch_iff q key).mp hq
      exact hqnot (by rw [hqk, ← hpk]; exact List.mem_map_of_mem Pair.key hp)
    · simp only [searchChain, if_neg hq, Option.map_eq_some'] at hj
      obtain ⟨i, hi, rfl⟩ := hj
      simp only [List.eraseIdx_cons_succ, searchChain, if_neg hq, ih i hndrest hi,
        Option.map_none']

lemma chainPairs_length_le (l : List (Option Chain)) (i : Nat) (c : Chain)
    (h : l.getD i none = some c) : c.length ≤ (l.flatMap chainPairs).length := by
  induction l generalizing i with
  | nil => simp [List.getD] at h
  | cons b rest ih =>
    cases i with
    | zero =>
      simp only [List.getD_cons_zero] at h
      subst h
      simp [chainPairs]
    | succ i2 =>
      simp only [List.getD_cons_succ] at h
      have := ih i2 h
      simp only [List.flatMap_cons, List.length_append]
      omega

end HelperLemmas

section OpLemmas

lemma search_key_eq (ctx : Ctx) (s : SearchCtx) (key : Bytes) :
    search_key ctx s key =
      match bucketAt ctx (routeKey ctx key) with
      | none => (s, Res.errNoKey)
      | some chain =>
        match searchChain chain key with
        | none => ({ s with key := key, key_size := key.length + 1 }, Res.errNoKey)
        | some j =>
          ({ key := key, key_size := key.length + 1, bucket_idx := routeKey ctx key,
             pair_idx := j, buff := some (routeKey ctx key, j) }, Res.ok) := by
  cases hb : bucketAt ctx (routeKey ctx key) with
  | none => simp [search_key, hb]
  | some chain =>
    cases hs : searchChain chain key with
    | none => simp [search_key, hb, hs]
    | some j => simp [search_key, hb, hs]

lemma search_key_res (ctx : Ctx) (s : SearchCtx) (key : Bytes) :
    (search_key ctx s key).2 =
      match searchChain (chainPairs (bucketAt ctx (routeKey ctx key))) key with
      | none => Res.errNoKey
      | some _ => Res.ok := by
  rw [search_key_eq]
  cases hb : bucketAt ctx (routeKey ctx key) with
  | none => simp [chainPairs, searchChain]
  | some chain =>
    cases hs : searchChain chain key with
    | none => simp [chainPairs, hs]
    | some j => simp [chainPairs, hs]

lemma has_spec (ctx : Ctx) (s : SearchCtx) (key : Bytes) :
    (bkvs_has ctx s key).2 =
      match searchChain (chainPairs (bucketAt ctx (routeKey ctx key))) key with
      | none => Res.errNoKey
      | some _ => Res.ok :=
  search_key_res ctx s key

lemma get_spec (ctx : Ctx) (s : SearchCtx) (key : Bytes) :
    (bkvs_get ctx s key).2 =
      match foundPair (chainPairs (bucketAt ctx (routeKey ctx key))) key with
      | some p => (Res.ok, some p.value)
      | none => (Res.errNoKey, none) := by
  unfold bkvs_get
  rw [search_key_eq]
  cases hb : bucketAt ctx (routeKey ctx key) with
  | none => simp [chainPairs, foundPair, searchChain]
  | some chain =>
    cases hs : searchChain chain key with
    | none => simp [chainPairs, foundPair, hs]
    | some j =>
      obtain ⟨p, hp, hm⟩ := searchChain_some chain key j hs
      rw [List.get?_eq_getElem?] at hp
      simp [chainPairs, foundPair, hs, hp, hb]

lemma put_update_spec (ctx : Ctx) (s : SearchCtx) (key value : Bytes) (plan : AllocPlan)
    (j : Nat) (hpl : plan.valueAlloc = true)
    (hj : searchChain (chainPairs (bucketAt ctx (routeKey ctx key))) key = some j) :
    ∃ p, (chainPairs (bucketAt ctx (routeKey ctx key))).get? j = some p ∧
      keyMatch p key = true ∧
      bkvs_put ctx s key value plan =
        ({ ctx with
            buckets := ctx.buckets.set (routeKey ctx key)
              (some ((chainPairs (bucketAt ctx (routeKey ctx key))).set j
                { key := p.key, value := value })) },
         { key := key, key_size := key.length + 1, bucket_idx := routeKey ctx key,
           pair_idx := j, buff := some (routeKey ctx key, j) },
         Res.ok) := by
  cases hb : bucketAt ctx (routeKey ctx key) with
  | none => rw [hb] at hj; simp [chainPairs, searchChain] at hj
  | some chain =>
    rw [hb] at hj
    simp only [chainPairs, Option.getD_some] at hj
    obtain ⟨p, hp, hm⟩ := searchChain_some chain key j hj
    refine ⟨p, ?_, hm, ?_⟩
    · simpa [chainPairs] using hp
    · unfold bkvs_put
      rw [search_key_eq, hb]
      simp only [hj, hpl, if_true, hb, chainPairs, Option.getD_some, hp]

lemma put_insert_spec (ctx : Ctx) (s : SearchCtx) (key value : Bytes) (plan : AllocPlan)
    (hmiss : searchChain (chainPairs (bucketAt ctx (routeKey ctx key))) key = none)
    (hk : plan.keyAlloc = true) (hv : plan.valueAlloc = true)
    (he : plan.enqueueAlloc = true)
    (hc : bucketAt ctx (routeKey ctx key) = none → plan.chainAlloc = true)
    (hlen : routeKey ctx key < ctx.buckets.length) :
    (bkvs_put ctx s key value plan).1 =
      { ctx with
        buckets := ctx.buckets.set (routeKey ctx key)
          (some (chainPairs (bucketAt ctx (routeKey ctx key)) ++
            [{ key := key, value := value }])),
        pair_num := (ctx.pair_num + 1) % M32 } ∧
    (bkvs_put ctx s key value plan).2.2 = Res.ok := by
  cases hb : bucketAt ctx (routeKey ctx key) with
  | none =>
    have hb2 : ctx.buckets.getD (routeKey ctx key) none = none := hb
    have hcc : plan.chainAlloc = true := hc hb
    unfold bkvs_put
    rw [search_key_eq, hb]
    simp only [hb, hb2, hcc, if_true, create_pair, hk, hv, Bool.not_true,
      Bool.false_eq_true, if_false, he, bucketAt, getD_set_self _ _ _ hlen, chainPairs,
      Option.getD_some, Option.getD_none, List.nil_append, List.set_set, searchChain]
    refine ⟨?_, ?_⟩ <;> trivial
  | some chain =>
    have hb2 : ctx.buckets.getD (routeKey ctx key) none = some chain := hb
    rw [hb] at hmiss
    simp only [chainPairs, Option.getD_some] at hmiss
    unfold bkvs_put
    rw [search_key_eq, hb]
    simp only [hmiss, hb, hb2, create_pair, hk, hv, Bool.not_true, Bool.false_eq_true,
      if_false, he, if_true, bucketAt, chainPairs, Option.getD_some]
    refine ⟨?_, ?_⟩ <;> trivial

lemma put_miss_noMem_spec (ctx : Ctx) (s : SearchCtx) (key value : Bytes) (plan : AllocPlan)
    (hmiss : searchChain (chainPairs (bucketAt ctx (routeKey ctx key))) key = none)
    (hres : (bkvs_put ctx s key value plan).2.2 = Res.errNoMem) :
    (bkvs_put ctx s key value plan).1 = ctx ∨
    (bucketAt ctx (routeKey ctx key) = none ∧
     (bkvs_put ctx s key value plan).1 =
       { ctx with buckets := ctx.buckets.set (routeKey ctx key) (some []) }) := by
  cases hb : bucketAt ctx (routeKey ctx key) with
  | none =>
    unfold bkvs_put at hres ⊢
    rw [search_key_eq, hb] at hres ⊢
    simp only [chainPairs, Option.getD_none, searchChain] at hres ⊢
    by_cases hc : plan.chainAlloc
    · simp only [hb, hc, if_true] at hres ⊢
      cases hcp : create_pair key value plan with
      | none => simp only [hcp]; right; refine ⟨?_, ?_⟩ <;> trivial
      | some pair =>
        simp only [hcp] at hres ⊢
        by_cases he : plan.enqueueAlloc
        · simp [he] at hres
        · simp only [if_neg he]; right; refine ⟨?_, ?_⟩ <;> trivial
    · simp only [hb, if_neg hc]; left; trivial
  | some chain =>
    rw [hb] at hmiss
    simp only [chainPairs, Option.getD_some] at hmiss
    unfold bkvs_put at hres ⊢
    rw [search_key_eq, hb] at hres ⊢
    simp only [hmiss, hb] at hres ⊢
    cases hcp : create_pair key value plan with
    | none => simp only [hcp]; left; trivial
    | some pair =>
      simp only [hcp] at hres ⊢
      by_cases he : plan.enqueueAlloc
      · simp [he] at hres
      · simp only [if_neg he]; left; trivial

lemma put_found_noMem_spec (ctx : Ctx) (s : SearchCtx) (key value : Bytes) (plan : AllocPlan)
    (j : Nat)
    (hj : searchChain (chainPairs (bucketAt ctx (routeKey ctx key))) key = some j)
    (hres : (bkvs_put ctx s key value plan).2.2 = Res.errNoMem) :
    (bkvs_put ctx s key value plan).1 = ctx := by
  cases hb : bucketAt ctx (routeKey ctx key) with
  | none => rw [hb] at hj; simp [chainPairs, searchChain] at hj
  | some chain =>
    rw [hb] at hj
    simp only [chainPairs, Option.getD_some] at hj
    obtain ⟨p, hp, hm⟩ := searchChain_some chain key j hj
    unfold bkvs_put at hres ⊢
    rw [search_key_eq, hb] at hres ⊢
    simp only [hj] at hres ⊢
    by_cases hv : plan.valueAlloc
    · simp only [hv, if_true, hb, chainPairs, Option.getD_some, hp] at hres ⊢
      simp at hres
    · simp only [if_neg hv]

lemma drop_found_spec (ctx : Ctx) (s : SearchCtx) (key : Bytes) (j : Nat)
    (hj : searchChain (chainPairs (bucketAt ctx (routeKey ctx key))) key = some j) :
    (bkvs_drop ctx s key).1 =
      { ctx with
        buckets := ctx.buckets.set (routeKey ctx key)
          (some ((chainPairs (bucketAt ctx (routeKey ctx key))).eraseIdx j)),
        pair_num := (ctx.pair_num + (M32 - 1)) % M32 } ∧
    (bkvs_drop ctx s key).2.2 = Res.ok := by
  cases hb : bucketAt ctx (routeKey ctx key) with
  | none => rw [hb] at hj; simp [chainPairs, searchChain] at hj
  | some chain =>
    rw [hb] at hj
    simp only [chainPairs, Option.getD_some] at hj
    have hlt : j < chain.length := searchChain_some_lt chain key j hj
    unfold bkvs_drop
    rw [search_key_eq, hb]
    simp only [hj, hb, chainPairs, Option.getD_some, if_pos hlt]
    refine ⟨?_, ?_⟩ <;> trivial

lemma drop_miss_spec (ctx : Ctx) (s : SearchCtx) (key : Bytes)
    (hmiss : searchChain (chainPairs (bucketAt ctx (routeKey ctx key))) key = none) :
    (bkvs_drop ctx s key).1 = ctx ∧ (bkvs_drop ctx s key).2.2 = Res.errNoKey := by
  cases hb : bucketAt ctx (routeKey ctx key) with
  | none =>
    unfold bkvs_drop
    rw [search_key_eq, hb]
    refine ⟨?_, ?_⟩ <;> trivial
  | some chain =>
    rw [hb] at hmiss
    simp only [chainPairs, Option.getD_some] at hmiss
    unfold bkvs_drop
    rw [search_key_eq, hb]
    simp only [hmiss]
    refine ⟨?_, ?_⟩ <;> trivial

lemma put_state_indep (ctx : Ctx) (s1 s2 : SearchCtx) (key value : Bytes)
    (plan : AllocPlan) :
    (bkvs_put ctx s1 key value plan).1 = (bkvs_put ctx s2 key value plan).1 ∧
    (bkvs_put ctx s1 key value plan).2.2 = (bkvs_put ctx s2 key value plan).2.2 := by
  unfold bkvs_put
  rw [search_key_eq ctx s1 key, search_key_eq ctx s2 key]
  cases hb : bucketAt ctx (routeKey ctx key) with
  | none =>
    cases hc : plan.chainAlloc <;> cases hcp : create_pair key value plan <;>
      cases he : plan.enqueueAlloc <;>
      simp only [hb, hc, he, hcp, Bool.false_eq_true, if_true, if_false] <;>
      refine ⟨?_, ?_⟩ <;> trivial
  | some chain =>
    cases hs : searchChain chain key with
    | none =>
      cases hcp : create_pair key value plan <;> cases he : plan.enqueueAlloc <;>
        simp only [hb, hs, hcp, he, Bool.false_eq_true, if_true, if_false] <;>
        refine ⟨?_, ?_⟩ <;> trivial
    | some j => refine ⟨?_, ?_⟩ <;> simp only [hs]

lemma drop_state_indep (ctx : Ctx) (s1 s2 : SearchCtx) (key : Bytes) :
    (bkvs_drop ctx s1 key).1 = (bkvs_drop ctx s2 key).1 ∧
    (bkvs_drop ctx s1 key).2.2 = (bkvs_drop ctx s2 key).2.2 := by
  unfold bkvs_drop
  rw [search_key_eq ctx s1 key, search_key_eq ctx s2 key]
  cases hb : bucketAt ctx (routeKey ctx key) with
  | none => exact ⟨rfl, rfl⟩
  | some chain =>
    cases hs : searchChain chain key with
    | none => refine ⟨?_, ?_⟩ <;> simp only [hs]
    | some j => refine ⟨?_, ?_⟩ <;> simp only [hs]

end OpLemmas

section ForeachLemmas

/-- The sequence of visitor invocations a full walk of a chain makes,
starting at running index `i0` with total `num`. -/
def visitsOf (num : Nat) : Nat → Chain → List Visit
  | _, [] => []
  | i0, p :: rest =>
    { key := p.key, value := p.value, idx := i0, num := num } :: visitsOf num (i0 + 1) rest

/-- Reference iteration over a precomputed visit list: applies the
visitor to each element until it signals stop. -/
def runVisits (cb : Cb) : List Visit → List Visit × Bool
  | [] => ([], false)
  | v :: rest =>
    if applyCb cb v == Res.errIterStop then ([v], true)
    else
      let r := runVisits cb rest
      (v :: r.1, r.2)

/-- Position of the first visit on which the visitor signals stop. -/
def stopIdx (cb : Cb) : List Visit → Option Nat
  | [] => none
  | v :: rest =>
    if applyCb cb v == Res.errIterStop then some 0 else (stopIdx cb rest).map (· + 1)

/-- The visit list a complete `bkvs_foreach` walk of a table performs. -/
def expectedVisits (ctx : Ctx) : List Visit :=
  visitsOf ctx.pair_num 0 (allPairs ctx)

lemma visitsOf_length (num i0 : Nat) (c : Chain) :
    (visitsOf num i0 c).length = c.length := by
  induction c generalizing i0 with
  | nil => rfl
  | cons p rest ih => simp [visitsOf, ih]

lemma visitsOf_append (num i0 : Nat) (a b : Chain) :
    visitsOf num i0 (a ++ b) = visitsOf num i0 a ++ visitsOf num (i0 + a.length) b := by
  induction a generalizing i0 with
  | nil => simp [visitsOf]
  | cons q rest ih =>
    simp only [List.cons_append, visitsOf, List.length_cons]
    rw [show rest.append b = rest ++ b from rfl, ih (i0 + 1)]
    rw [show i0 + 1 + rest.length = i0 + (rest.length + 1) by omega]

lemma runVisits_not_stopped (cb : Cb) (vs : List Visit)
    (h : (runVisits cb vs).2 = false) : (runVisits cb vs).1 = vs := by
  induction vs with
  | nil => rfl
  | cons v rest ih =>
    by_cases hv : applyCb cb v == Res.errIterStop
    · simp [runVisits, hv] at h
    · simp only [runVisits, hv, Bool.false_eq_true, if_false] at h ⊢
      simp [ih h]

lemma runVisits_append (cb : Cb) (a b : List Visit) :
    runVisits cb (a ++ b) =
      if (runVisits cb a).2 then runVisits cb a
      else ((runVisits cb a).1 ++ (runVisits cb b).1, (runVisits cb b).2) := by
  induction a with
  | nil => simp [runVisits]
  | cons v rest ih =>
    by_cases hv : applyCb cb v == Res.errIterStop
    · simp [runVisits, hv]
    · simp only [List.cons_append, runVisits, hv, Bool.false_eq_true, if_false]
      rw [show rest.append b = rest ++ b from rfl, ih]
      by_cases hstop : (runVisits cb rest).2
      · simp [runVisits, hv, hstop]
      · simp [runVisits, hv, hstop]

lemma foreachChain_eq (cb : Cb) (num : Nat) (c : Chain) (i0 : Nat) :
    foreachChain cb num c i0 = runVisits cb (visitsOf num i0 c) := by
  induction c generalizing i0 with
  | nil => rfl
  | cons p rest ih =>
    by_cases hv : applyCb cb { key := p.key, value := p.value, idx := i0, num := num }
        == Res.errIterStop
    · simp [foreachChain, visitsOf, runVisits, hv]
    · simp [foreachChain, visitsOf, runVisits, hv, ih]

lemma foreachBuckets_eq (cb : Cb) (num : Nat) (bs : List (Option Chain)) (i0 : Nat) :
    foreachBuckets cb num bs i0 = runVisits cb (visitsOf num i0 (bs.flatMap chainPairs)) := by
  induction bs generalizing i0 with
  | nil => rfl
  | cons b rest ih =>
    simp only [foreachBuckets, foreachChain_eq, List.flatMap_cons, visitsOf_append,
      runVisits_append]
    by_cases hstop : (runVisits cb (visitsOf num i0 (chainPairs b))).2
    · simp [hstop]
    · have hfull := runVisits_not_stopped cb (visitsOf num i0 (chainPairs b))
        (by simpa using hstop)
      simp only [hstop, Bool.false_eq_true, if_false, ih, hfull, visitsOf_length]

lemma runVisits_stopIdx (cb : Cb) (vs : List Visit) :
    runVisits cb vs =
      match stopIdx cb vs with
      | none => (vs, false)
      | some i => (vs.take (i + 1), true) := by
  induction vs with
  | nil => rfl
  | cons v rest ih =>
    by_cases hv : applyCb cb v == Res.errIterStop
    · simp [runVisits, stopIdx, hv]
    · simp only [runVisits, stopIdx, hv, Bool.false_eq_true, if_false, ih]
      cases hs : stopIdx cb rest with
      | none => simp
      | some i => simp [List.take_succ_cons]

lemma visitsOf_map_key (num i0 : Nat) (c : Chain) :
    (visitsOf num i0 c).map Visit.key = c.map Pair.key := by
  induction c generalizing i0 with
  | nil => rfl
  | cons p rest ih => simp [visitsOf, ih]

lemma visitsOf_map_value (num i0 : Nat) (c : Chain) :
    (visitsOf num i0 c).map Visit.value = c.map Pair.value := by
  induction c generalizing i0 with
  | nil => rfl
  | cons p rest ih => simp [visitsOf, ih]

lemma visitsOf_map_idx (num i0 : Nat) (c : Chain) :
    (visitsOf num i0 c).map Visit.idx = List.range' i0 c.length := by
  induction c generalizing i0 with
  | nil => rfl
  | cons p rest ih => simp [visitsOf, ih, List.range'_succ]

lemma visitsOf_map_num (num i0 : Nat) (c : Chain) :
    (visitsOf num i0 c).map Visit.num = List.replicate c.length num := by
  induction c generalizing i0 with
  | nil => rfl
  | cons p rest ih => simp [visitsOf, ih, List.replicate_succ]

end ForeachLemmas

section MoreHelpers

lemma chainPairs_some_of_found (ob : Option Chain) (key : Bytes) (j : Nat)
    (h : searchChain (chainPairs ob) key = some j) : ob = some (chainPairs ob) := by
  cases ob with
  | none => simp [chainPairs, searchChain] at h
  | some c => simp [chainPairs]

lemma has_ok_iff (ctx : Ctx) (s : SearchCtx) (key : Bytes) :
    (bkvs_has ctx s key).2 = Res.ok ↔
      ∃ j, searchChain (chainPairs (bucketAt ctx (routeKey ctx key))) key = some j := by
  rw [has_spec]
  cases hs : searchChain (chainPairs (bucketAt ctx (routeKey ctx key))) key with
  | none => simp
  | some j => simp

lemma has_noKey_iff (ctx : Ctx) (s : SearchCtx) (key : Bytes) :
    (bkvs_has ctx s key).2 = Res.errNoKey ↔
      searchChain (chainPairs (bucketAt ctx (routeKey ctx key))) key = none := by
  rw [has_spec]
  cases hs : searchChain (chainPairs (bucketAt ctx (routeKey ctx key))) key with
  | none => simp
  | some j => simp

lemma set_same {α : Type} (l : List α) (i : Nat) (x : α)
    (h : l.get? i = some x) : l.set i x = l := by
  induction l generalizing i with
  | nil => rfl
  | cons a rest ih =>
    cases i with
    | zero =>
      simp only [List.get?_cons_zero, Option.some.injEq] at h
      subst h
      rfl
    | succ i2 =>
      simp only [List.get?_cons_succ] at h
      simp [List.set_cons_succ, ih i2 h]

lemma get?_of_getD_some (l : List (Option Chain)) (i : Nat) (c : Chain)
    (h : l.getD i none = some c) : l.get? i = some (some c) := by
  have hlt := getD_some_lt l i c h
  rw [List.getD_eq_getElem?_getD, List.getElem?_eq_getElem hlt] at h
  rw [List.get?_eq_getElem?, List.getElem?_eq_getElem hlt]
  simpa using h

end MoreHelpers

/-
  Claim C1. The live pair count reported by `bkvs_status` should equal
  the sum of the per-bucket chain sizes after every operation; the spec
  requires `bkvs_empty` to reset the pair count to 0.
-/

/-- A one-bucket table holding the single pair `[97] -> [1]`, built by a
successful `bkvs_put` on a properly zeroed fresh table. -/
def ctxOnePair : Ctx :=
  (bkvs_put
    { hash_cb := fun _ => 0, bucket_num := 1, pair_num_max := 0,
      pair_num := 0, buckets := [none] }
    searchCtx0 [97] [1] allocOk).1

/-- C1: after `bkvs_empty` removes every pair and clears every bucket
slot, the cached pair count is still 1 while the chains hold 0 pairs,
because `bkvs_empty` never writes `ctx->cache.pair_num`. The status
report therefore no longer equals the sum of the chain sizes. -/
theorem bkvs_empty_pair_count_bug :
    bkvs_status (bkvs_empty ctxOnePair).1 = 1 ∧
    countPairs (bkvs_empty ctxOnePair).1 = 0 ∧
    bkvs_status (bkvs_empty ctxOnePair).1 ≠ countPairs (bkvs_empty ctxOnePair).1 := by
  refine ⟨rfl, rfl, by decide⟩

/-
  Claim C3. On a freshly created table every bucket slot should be
  empty and every lookup should miss. `bkvs_new` only zeroes
  `sizeof(bkvs_ctx)` which excludes the flexible `buckets[]` array, so
  the slots keep whatever bytes `malloc` returned.
-/

/-- Uninitialised malloc contents of the bucket array in which the
single cell happens to decode as a non-NULL chain handle with one
stored pair. -/
def junkBuckets : List (Option Chain) := [some [{ key := [1], value := [2] }]]

/-- C3: a freshly created table whose malloc'd bucket array held junk
has a non-empty bucket slot, and `bkvs_get` on it returns the junk
record instead of `BKVS_ERR_NO_KEY`: the bucket array is never cleared
by `bkvs_new`. -/
theorem bkvs_new_leaves_buckets_uninitialised :
    (bkvs_new
      (some { hash_cb := some (fun _ => 0), bucket_num := 1, pair_num_max := 0 })
      junkBuckets).buckets ≠ List.replicate 1 none ∧
    (bkvs_get
      (bkvs_new
        (some { hash_cb := some (fun _ => 0), bucket_num := 1, pair_num_max := 0 })
        junkBuckets)
      searchCtx0 [1]).2 = (Res.ok, some [2]) := by
  refine ⟨by decide, rfl⟩

/-
  Claim C8. The hash formulas and their 32-bit range, and whether the
  terminator byte is folded into the hash.
-/

/-- The djb2 computation a terminator-inclusive reading of the spec
prescribes: the fold also processes the final zero byte. -/
def djb2WithTerminator (str : Bytes) : Nat :=
  (str ++ [0]).foldl (fun hash c => (hash * 33 + c) % M32) 5381

/-- The sdbm computation a terminator-inclusive reading of the spec
prescribes: the fold also processes the final zero byte. -/
def sdbmWithTerminator (str : Bytes) : Nat :=
  (str ++ [0]).foldl (fun hash c => (c + (hash <<< 6) + (hash <<< 16) + M32 - hash % M32) % M32) 0

/-- C8 counterexample: on the one-byte key `"a"` ([97]) both source
hash functions differ from the terminator-inclusive values, because
the C loops `while ((c = *str++))` exit on the zero byte without
folding it into the hash. -/
theorem hash_terminator_not_folded :
    bkvs_hash_cb_djb2 [97] ≠ djb2WithTerminator [97] ∧
    bkvs_hash_cb_sdbm [97] ≠ sdbmWithTerminator [97] := by
  refine ⟨by decide, by decide⟩

lemma foldl_mod_lt (f : Nat → Nat → Nat) (hf : ∀ h c, f h c < M32)
    (l : Bytes) (h0 : Nat) (h : h0 < M32) : l.foldl f h0 < M32 := by
  induction l generalizing h0 with
  | nil => exact h
  | cons c rest ih => exact ih _ (hf h0 c)

/-- C8 amended: djb2 starts at 5381 and folds `hash = hash * 33 + c`,
sdbm starts at 0 and folds `hash = c + (hash << 6) + (hash << 16) -
hash`, both in 32-bit unsigned arithmetic over the key's bytes up to
but not including the terminator, and both results are 32-bit values. -/
theorem hash_functions_formulas (str : Bytes) :
    bkvs_hash_cb_djb2 str = str.foldl (fun hash c => (hash * 33 + c) % M32) 5381 ∧
    bkvs_hash_cb_sdbm str =
      str.foldl (fun hash c => (c + (hash <<< 6) + (hash <<< 16) + M32 - hash % M32) % M32) 0 ∧
    bkvs_hash_cb_djb2 str < M32 ∧ bkvs_hash_cb_sdbm str < M32 := by
  have hstep : (fun hash c => (((hash <<< 5) + hash) + c) % M32)
      = (fun hash c => (hash * 33 + c) % M32) := by
    funext h c
    congr 1
    rw [Nat.shiftLeft_eq]
    ring
  refine ⟨by rw [bkvs_hash_cb_djb2, hstep], rfl, ?_, ?_⟩
  · exact foldl_mod_lt _ (fun h c => Nat.mod_lt _ (by norm_num [M32])) str 5381
      (by norm_num [M32])
  · exact foldl_mod_lt _ (fun h c => Nat.mod_lt _ (by norm_num [M32])) str 0
      (by norm_num [M32])

/-
  Claim C9. Lookups communicate through the process-wide static
  `search_ctx`, not a per-call owned value; but sequentially, every
  operation's outcome depends only on the table and the arguments.
-/

/-- A one-bucket empty table with the zero hash function. -/
def ctxEmptyOneBucket : Ctx :=
  { hash_cb := fun _ => 0, bucket_num := 1, pair_num_max := 0,
    pair_num := 0, buckets := [none] }

/-- Residual search state left by some earlier lookup: position 5. -/
def staleSearchA : SearchCtx :=
  { key := [], key_size := 0, bucket_idx := 0, pair_idx := 5, buff := none }

/-- Residual search state left by a different earlier lookup. -/
def staleSearchB : SearchCtx :=
  { key := [], key_size := 0, bucket_idx := 0, pair_idx := 7, buff := none }

/-- C9 counterexample: the search state a lookup leaves behind is not
an independently owned per-call value - after a missed lookup with the
same table and the same arguments, the process-wide `search_ctx` still
differs according to the prior lookup history (it retains the stale
`pair_idx` 5 versus 7). -/
theorem search_result_is_shared_state :
    (search_key ctxEmptyOneBucket staleSearchA [97]).1 ≠
      (search_key ctxEmptyOneBucket staleSearchB [97]).1 ∧
    (search_key ctxEmptyOneBucket staleSearchA [97]).1.pair_idx = 5 ∧
    (search_key ctxEmptyOneBucket staleSearchB [97]).1.pair_idx = 7 := by
  refine ⟨by decide, rfl, rfl⟩

/-- C9 amended: although lookups overwrite the single static
`search_ctx`, under the sequential semantics the outcome of every
operation - result codes, the value view `bkvs_get` returns, and the
table state `bkvs_put` and `bkvs_drop` produce - depends only on the
table and the call's arguments, never on the residual contents of the
static search state. -/
theorem op_outcomes_independent_of_search_state (ctx : Ctx) (s1 s2 : SearchCtx)
    (key value : Bytes) (plan : AllocPlan) :
    (bkvs_has ctx s1 key).2 = (bkvs_has ctx s2 key).2 ∧
    (bkvs_get ctx s1 key).2 = (bkvs_get ctx s2 key).2 ∧
    (bkvs_put ctx s1 key value plan).1 = (bkvs_put ctx s2 key value plan).1 ∧
    (bkvs_put ctx s1 key value plan).2.2 = (bkvs_put ctx s2 key value plan).2.2 ∧
    (bkvs_drop ctx s1 key).1 = (bkvs_drop ctx s2 key).1 ∧
    (bkvs_drop ctx s1 key).2.2 = (bkvs_drop ctx s2 key).2.2 := by
  refine ⟨?_, ?_, (put_state_indep ctx s1 s2 key value plan).1,
    (put_state_indep ctx s1 s2 key value plan).2,
    (drop_state_indep ctx s1 s2 key).1, (drop_state_indep ctx s1 s2 key).2⟩
  · rw [has_spec, has_spec]
  · rw [get_spec, get_spec]

section PutOkElim

lemma put_ok_elim (ctx : Ctx) (s : SearchCtx) (key value : Bytes) (plan : AllocPlan)
    (hok : (bkvs_put ctx s key value plan).2.2 = Res.ok) :
    (∃ j, searchChain (chainPairs (bucketAt ctx (routeKey ctx key))) key = some j ∧
      plan.valueAlloc = true) ∨
    (searchChain (chainPairs (bucketAt ctx (routeKey ctx key))) key = none ∧
     plan.keyAlloc = true ∧ plan.valueAlloc = true ∧ plan.enqueueAlloc = true ∧
     (bucketAt ctx (routeKey ctx key) = none → plan.chainAlloc = true)) := by
  cases hb : bucketAt ctx (routeKey ctx key) with
  | none =>
    unfold bkvs_put at hok
    rw [search_key_eq, hb] at hok
    right
    cases hc : plan.chainAlloc <;> cases hk2 : plan.keyAlloc <;>
      cases hv2 : plan.valueAlloc <;> cases he2 : plan.enqueueAlloc <;>
      simp only [hb, hc, hk2, hv2, he2, create_pair, Bool.not_true, Bool.not_false,
        Bool.false_eq_true, if_true, if_false] at hok <;>
      first
        | exact Res.noConfusion hok
        | exact ⟨rfl, rfl, rfl, rfl, fun _ => rfl⟩
  | some chain =>
    unfold bkvs_put at hok
    rw [search_key_eq, hb] at hok
    cases hs : searchChain chain key with
    | some j =>
      left
      refine ⟨j, by simp [chainPairs, hs], ?_⟩
      simp only [hs] at hok
      by_cases hv2 : plan.valueAlloc
      · exact hv2
      · simp [if_neg hv2] at hok
    | none =>
      right
      simp only [hs] at hok
      cases hk2 : plan.keyAlloc <;> cases hv2 : plan.valueAlloc <;>
        cases he2 : plan.enqueueAlloc <;>
        simp only [hb, hk2, hv2, he2, create_pair, Bool.not_true, Bool.not_false,
          Bool.false_eq_true, if_true, if_false] at hok <;>
        first
          | exact Res.noConfusion hok
          | exact ⟨by simp [chainPairs, hs], rfl, rfl, rfl,
              fun hcontra => Option.noConfusion hcontra⟩

lemma get_spec_fields (ctx : Ctx) (s : SearchCtx) (key : Bytes) :
    (bkvs_get ctx s key).2 =
      match foundPair
          (chainPairs (ctx.buckets.getD (ctx.hash_cb key % ctx.bucket_num) none)) key with
      | some p => (Res.ok, some p.value)
      | none => (Res.errNoKey, none) :=
  get_spec ctx s key

lemma has_spec_fields (ctx : Ctx) (s : SearchCtx) (key : Bytes) :
    (bkvs_has ctx s key).2 =
      match searchChain
          (chainPairs (ctx.buckets.getD (ctx.hash_cb key % ctx.bucket_num) none)) key with
      | none => Res.errNoKey
      | some _ => Res.ok :=
  has_spec ctx s key

end PutOkElim

/-
  Claim C2. A put that fails with NoMemory should leave the table
  exactly as it was. In the code, when the lazily created chain
  succeeds but a later allocation fails, the new empty chain stays in
  the bucket slot.
-/

/-- The allocation plan on which only the key duplication `malloc` of
`create_pair` fails. -/
def planKeyFail : AllocPlan :=
  { chainAlloc := true, keyAlloc := false, valueAlloc := true, enqueueAlloc := true }

/-- C2 counterexample: on an empty one-bucket table, a put whose chain
creation succeeds and whose key duplication then fails returns
`BKVS_ERR_NO_MEM` but leaves the freshly created empty chain in the
bucket slot: the slot differs from its pre-call state `[none]`. -/
theorem put_noMem_leaves_created_chain :
    (bkvs_put ctxEmptyOneBucket searchCtx0 [97] [1] planKeyFail).2.2 = Res.errNoMem ∧
    (bkvs_put ctxEmptyOneBucket searchCtx0 [97] [1] planKeyFail).1.buckets = [some []] ∧
    ctxEmptyOneBucket.buckets = [none] :=
  ⟨rfl, rfl, rfl⟩

/-- What a NoMemory-returning put actually preserves: the pair count,
and every bucket's pair contents; the bucket array is unchanged except
that a previously empty slot may now hold a freshly created empty
chain. -/
def PutNoMemFrame (ctx : Ctx) (s : SearchCtx) (key value : Bytes) (plan : AllocPlan) :
    Prop :=
  (bkvs_put ctx s key value plan).1.pair_num = ctx.pair_num ∧
  (∀ i, chainPairs (bucketAt (bkvs_put ctx s key value plan).1 i) =
    chainPairs (bucketAt ctx i)) ∧
  ((bkvs_put ctx s key value plan).1.buckets = ctx.buckets ∨
   (bucketAt ctx (routeKey ctx key) = none ∧
    (bkvs_put ctx s key value plan).1.buckets =
      ctx.buckets.set (routeKey ctx key) (some [])))

/-- C2 amended: every put that returns NoMemory leaves the pair count
and every bucket's stored pairs unchanged; the only possible difference
is that the routed bucket's slot, previously empty, now holds a newly
created empty chain (when chain creation succeeded before a later
allocation failed). -/
theorem put_noMem_table_preserved (ctx : Ctx) (s : SearchCtx) (key value : Bytes)
    (plan : AllocPlan) (hd : dims ctx)
    (hres : (bkvs_put ctx s key value plan).2.2 = Res.errNoMem) :
    PutNoMemFrame ctx s key value plan := by
  cases hsc : searchChain (chainPairs (bucketAt ctx (routeKey ctx key))) key with
  | some j =>
    have htab := put_found_noMem_spec ctx s key value plan j hsc hres
    exact ⟨by rw [htab], fun i => by rw [htab], Or.inl (by rw [htab])⟩
  | none =>
    rcases put_miss_noMem_spec ctx s key value plan hsc hres with htab | ⟨hbnone, htab⟩
    · exact ⟨by rw [htab], fun i => by rw [htab], Or.inl (by rw [htab])⟩
    · have hblt : routeKey ctx key < ctx.buckets.length := by
        rcases hd with ⟨hn, hlen⟩
        rw [hlen]
        exact Nat.mod_lt _ hn
      refine ⟨by rw [htab], ?_, Or.inr ⟨hbnone, by rw [htab]⟩⟩
      intro i
      rw [htab]
      by_cases hi : i = routeKey ctx key
      · rw [hi]
        show chainPairs
            ((ctx.buckets.set (routeKey ctx key) (some [])).getD (routeKey ctx key) none) =
          chainPairs (bucketAt ctx (routeKey ctx key))
        rw [getD_set_self _ _ _ hblt, hbnone]
        rfl
      · show chainPairs
            ((ctx.buckets.set (routeKey ctx key) (some [])).getD i none) =
          chainPairs (bucketAt ctx i)
        rw [getD_set_ne _ _ _ _ hi]
        rfl

/-- C2 witness: the amended preservation instantiated on the table and
plan of the counterexample. -/
theorem put_noMem_table_preserved_witness :
    dims ctxEmptyOneBucket ∧
    (bkvs_put ctxEmptyOneBucket searchCtx0 [97] [1] planKeyFail).2.2 = Res.errNoMem ∧
    PutNoMemFrame ctxEmptyOneBucket searchCtx0 [97] [1] planKeyFail := by
  have hd : dims ctxEmptyOneBucket := ⟨by decide, rfl⟩
  have hres :
      (bkvs_put ctxEmptyOneBucket searchCtx0 [97] [1] planKeyFail).2.2 = Res.errNoMem := rfl
  exact ⟨hd, hres, put_noMem_table_preserved _ _ _ _ _ hd hres⟩

/-
  Claim C4. Round-trip: a successful put followed by a get on the same
  key yields exactly the stored value bytes.
-/

lemma get_after_put_found (ctx : Ctx) (s s2 : SearchCtx) (key value : Bytes)
    (plan : AllocPlan) (j : Nat) (hpl : plan.valueAlloc = true)
    (hj : searchChain (chainPairs (bucketAt ctx (routeKey ctx key))) key = some j) :
    (bkvs_get (bkvs_put ctx s key value plan).1 s2 key).2 = (Res.ok, some value) := by
  obtain ⟨p, hp, hm, heq⟩ := put_update_spec ctx s key value plan j hpl hj
  have hob := chainPairs_some_of_found _ _ _ hj
  have hblt : routeKey ctx key < ctx.buckets.length := getD_some_lt _ _ _ hob
  have hjlt : j < (chainPairs (bucketAt ctx (routeKey ctx key))).length :=
    searchChain_some_lt _ _ _ hj
  have h1 : (bkvs_put ctx s key value plan).1.hash_cb = ctx.hash_cb := by rw [heq]
  have h2 : (bkvs_put ctx s key value plan).1.bucket_num = ctx.bucket_num := by rw [heq]
  have h4 : (bkvs_put ctx s key value plan).1.buckets =
      ctx.buckets.set (routeKey ctx key)
        (some ((chainPairs (bucketAt ctx (routeKey ctx key))).set j
          { key := p.key, value := value })) := by rw [heq]
  rw [get_spec_fields, h1, h2, h4,
    show ctx.hash_cb key % ctx.bucket_num = routeKey ctx key from rfl,
    getD_set_self _ _ _ hblt]
  have hsc2 : searchChain
      ((chainPairs (bucketAt ctx (routeKey ctx key))).set j { key := p.key, value := value })
      key = some j := by
    rw [searchChain_keys_congr _ (chainPairs (bucketAt ctx (routeKey ctx key))) key
      (map_key_set _ _ _ _ hp)]
    exact hj
  have hfp : foundPair
      ((chainPairs (bucketAt ctx (routeKey ctx key))).set j { key := p.key, value := value })
      key = some { key := p.key, value := value } := by
    rw [foundPair, hsc2, Option.some_bind]
    exact get?_set_self _ _ _ hjlt
  rw [show chainPairs (some ((chainPairs (bucketAt ctx (routeKey ctx key))).set j
      { key := p.key, value := value })) =
    (chainPairs (bucketAt ctx (routeKey ctx key))).set j { key := p.key, value := value }
    from rfl]
  rw [hfp]

lemma get_after_put_miss (ctx : Ctx) (s s2 : SearchCtx) (key value : Bytes)
    (plan : AllocPlan)
    (hmiss : searchChain (chainPairs (bucketAt ctx (routeKey ctx key))) key = none)
    (hk2 : plan.keyAlloc = true) (hv2 : plan.valueAlloc = true)
    (he2 : plan.enqueueAlloc = true)
    (hc2 : bucketAt ctx (routeKey ctx key) = none → plan.chainAlloc = true)
    (hblt : routeKey ctx key < ctx.buckets.length) :
    (bkvs_get (bkvs_put ctx s key value plan).1 s2 key).2 = (Res.ok, some value) := by
  obtain ⟨htab, hres2⟩ := put_insert_spec ctx s key value plan hmiss hk2 hv2 he2 hc2 hblt
  have h1 : (bkvs_put ctx s key value plan).1.hash_cb = ctx.hash_cb := by rw [htab]
  have h2 : (bkvs_put ctx s key value plan).1.bucket_num = ctx.bucket_num := by rw [htab]
  have h4 : (bkvs_put ctx s key value plan).1.buckets =
      ctx.buckets.set (routeKey ctx key)
        (some (chainPairs (bucketAt ctx (routeKey ctx key)) ++
          [{ key := key, value := value }])) := by rw [htab]
  rw [get_spec_fields, h1, h2, h4,
    show ctx.hash_cb key % ctx.bucket_num = routeKey ctx key from rfl,
    getD_set_self _ _ _ hblt]
  have happ : searchChain
      (chainPairs (bucketAt ctx (routeKey ctx key)) ++ [{ key := key, value := value }])
      key = some (chainPairs (bucketAt ctx (routeKey ctx key))).length :=
    searchChain_append_ofNone _ _ _ hmiss ((keyMatch_iff _ _).mpr rfl)
  have hfp : foundPair
      (chainPairs (bucketAt ctx (routeKey ctx key)) ++ [{ key := key, value := value }])
      key = some { key := key, value := value } := by
    rw [foundPair, happ, Option.some_bind]
    exact get?_append_length _ _
  rw [show chainPairs (some (chainPairs (bucketAt ctx (routeKey ctx key)) ++
      [{ key := key, value := value }])) =
    chainPairs (bucketAt ctx (routeKey ctx key)) ++ [{ key := key, value := value }]
    from rfl]
  rw [hfp]

/-- C4: after a successful `bkvs_put` of key K and value V on any table
whose dimensions are sane, `bkvs_get` of K succeeds and the returned
view is byte-equal to V (its size is V's length, as the view carries
exactly the value bytes). -/
theorem put_get_roundtrip (ctx : Ctx) (s s2 : SearchCtx) (key value : Bytes)
    (plan : AllocPlan) (hd : dims ctx) (hkey : key ≠ []) (hval : value ≠ [])
    (hok : (bkvs_put ctx s key value plan).2.2 = Res.ok) :
    (bkvs_get (bkvs_put ctx s key value plan).1 s2 key).2 = (Res.ok, some value) := by
  rcases put_ok_elim ctx s key value plan hok with ⟨j, hj, hpl⟩ | ⟨hmiss, hk2, hv2, he2, hc2⟩
  · exact get_after_put_found ctx s s2 key value plan j hpl hj
  · have hblt : routeKey ctx key < ctx.buckets.length := by
      rcases hd with ⟨hn, hlen⟩
      rw [hlen]
      exact Nat.mod_lt _ hn
    exact get_after_put_miss ctx s s2 key value plan hmiss hk2 hv2 he2 hc2 hblt

/-- C4 witness: the round-trip instantiated on a concrete one-bucket
table, key [97] and value [5]. -/
theorem put_get_roundtrip_witness :
    dims ctxEmptyOneBucket ∧ ([97] : Bytes) ≠ [] ∧ ([5] : Bytes) ≠ [] ∧
    (bkvs_put ctxEmptyOneBucket searchCtx0 [97] [5] allocOk).2.2 = Res.ok ∧
    (bkvs_get (bkvs_put ctxEmptyOneBucket searchCtx0 [97] [5] allocOk).1 searchCtx0
      [97]).2 = (Res.ok, some [5]) := by
  have hd : dims ctxEmptyOneBucket := ⟨by decide, rfl⟩
  have hok : (bkvs_put ctxEmptyOneBucket searchCtx0 [97] [5] allocOk).2.2 = Res.ok := rfl
  exact ⟨hd, by decide, by decide, hok,
    put_get_roundtrip _ _ _ _ _ _ hd (by decide) (by decide) hok⟩

/-
  Claim C7. `bkvs_foreach` visits every stored pair exactly once, in
  slot-then-insertion order, with a running index from 0 and the cached
  pair count as total, and halts immediately with
  `BKVS_ERR_ITER_STOP` when the visitor stops.
-/

/-- C7: the instrumented `bkvs_foreach` walk equals the reference walk
of `expectedVisits` - the pairs of `allPairs` in slot-then-insertion
order, carrying running indices 0,1,2,... and the pair count
snapshotted at call start - visiting a strict prefix up to and
including the stopping visit and returning `BKVS_ERR_ITER_STOP` when
the visitor stops, and visiting the whole list with `BKVS_OK`
otherwise. -/
theorem bkvs_foreach_spec (ctx : Ctx) (cb : Cb) :
    bkvs_foreachT ctx cb =
      (match stopIdx cb (expectedVisits ctx) with
       | none => (expectedVisits ctx, Res.ok)
       | some i => ((expectedVisits ctx).take (i + 1), Res.errIterStop)) ∧
    (expectedVisits ctx).map Visit.key = (allPairs ctx).map Pair.key ∧
    (expectedVisits ctx).map Visit.value = (allPairs ctx).map Pair.value ∧
    (expectedVisits ctx).map Visit.idx = List.range (countPairs ctx) ∧
    (expectedVisits ctx).map Visit.num = List.replicate (countPairs ctx) ctx.pair_num := by
  refine ⟨?_, visitsOf_map_key _ _ _, visitsOf_map_value _ _ _, ?_, visitsOf_map_num _ _ _⟩
  · unfold bkvs_foreachT
    rw [foreachBuckets_eq,
      show visitsOf ctx.pair_num 0 (ctx.buckets.flatMap chainPairs) = expectedVisits ctx
        from rfl,
      runVisits_stopIdx]
    cases hsi : stopIdx cb (expectedVisits ctx) with
    | none => rfl
    | some i => rfl
  · rw [show expectedVisits ctx = visitsOf ctx.pair_num 0 (allPairs ctx) from rfl,
      visitsOf_map_idx, show countPairs ctx = (allPairs ctx).length from rfl,
      List.range_eq_range']

/-
  Claim C5. Drop semantics: a present key is removed exactly, the pair
  count drops by exactly one, and nothing else changes; an absent key
  returns NoSuchKey with the table untouched.
-/

/-- The behaviour claim C5 makes of `bkvs_drop` on a table, split into
the present-key and absent-key cases. -/
def DropBehavior (ctx : Ctx) (s s2 : SearchCtx) (key : Bytes) : Prop :=
  ((bkvs_has ctx searchCtx0 key).2 = Res.ok →
    (bkvs_drop ctx s key).2.2 = Res.ok ∧
    (bkvs_drop ctx s key).1.pair_num + 1 = ctx.pair_num ∧
    (∃ chain j p, bucketAt ctx (routeKey ctx key) = some chain ∧
      searchChain chain key = some j ∧ chain.get? j = some p ∧ p.key = key ∧
      (bkvs_drop ctx s key).1.buckets =
        ctx.buckets.set (routeKey ctx key) (some (chain.eraseIdx j))) ∧
    (bkvs_get (bkvs_drop ctx s key).1 s2 key).2 = (Res.errNoKey, none) ∧
    (bkvs_has (bkvs_drop ctx s key).1 s2 key).2 = Res.errNoKey ∧
    (∀ key2, key2 ≠ key →
      (bkvs_get (bkvs_drop ctx s key).1 s2 key2).2 = (bkvs_get ctx s2 key2).2)) ∧
  ((bkvs_has ctx searchCtx0 key).2 = Res.errNoKey →
    (bkvs_drop ctx s key).1 = ctx ∧ (bkvs_drop ctx s key).2.2 = Res.errNoKey)

/-- C5: on a well-formed table, dropping a present key succeeds,
removes exactly the matched pair from its chain, decrements the pair
count by exactly one, makes subsequent get and has on that key report
NoSuchKey, and leaves every other key's lookup result untouched;
dropping an absent key returns NoSuchKey and leaves the table exactly
unchanged. -/
theorem bkvs_drop_spec (ctx : Ctx) (s s2 : SearchCtx) (key : Bytes) (hwf : WF ctx) :
    DropBehavior ctx s s2 key := by
  obtain ⟨⟨hn, hlen⟩, hbok, hnd, hpn, hM⟩ := hwf
  constructor
  · intro hpres
    obtain ⟨j, hj⟩ := (has_ok_iff ctx searchCtx0 key).mp hpres
    obtain ⟨htab, hres⟩ := drop_found_spec ctx s key j hj
    have hob := chainPairs_some_of_found _ _ _ hj
    have hblt : routeKey ctx key < ctx.buckets.length := getD_some_lt _ _ _ hob
    have hjlt : j < (chainPairs (bucketAt ctx (routeKey ctx key))).length :=
      searchChain_some_lt _ _ _ hj
    obtain ⟨p, hp, hmatch⟩ := searchChain_some _ _ _ hj
    have hpk : p.key = key := (keyMatch_iff _ _).mp hmatch
    have h1 : (bkvs_drop ctx s key).1.hash_cb = ctx.hash_cb := by rw [htab]
    have h2 : (bkvs_drop ctx s key).1.bucket_num = ctx.bucket_num := by rw [htab]
    have h3 : (bkvs_drop ctx s key).1.pair_num = (ctx.pair_num + (M32 - 1)) % M32 := by
      rw [htab]
    have h4 : (bkvs_drop ctx s key).1.buckets =
        ctx.buckets.set (routeKey ctx key)
          (some ((chainPairs (bucketAt ctx (routeKey ctx key))).eraseIdx j)) := by
      rw [htab]
    have hroute_lt : routeKey ctx key < ctx.bucket_num := Nat.mod_lt _ hn
    have hndb := hnd (routeKey ctx key) hroute_lt
    have hscE : searchChain
        ((chainPairs (bucketAt ctx (routeKey ctx key))).eraseIdx j) key = none :=
      searchChain_eraseIdx_first _ key j hndb hj
    have hcount1 : 1 ≤ countPairs ctx := by
      have hle := chainPairs_length_le ctx.buckets (routeKey ctx key)
        (chainPairs (bucketAt ctx (routeKey ctx key))) hob
      have : 1 ≤ (chainPairs (bucketAt ctx (routeKey ctx key))).length := by omega
      exact le_trans this hle
    refine ⟨hres, ?_, ?_, ?_, ?_, ?_⟩
    · rw [h3, hpn]
      have hM2 : countPairs ctx < 4294967296 := by simpa [M32] using hM
      simp only [M32]
      omega
    · exact ⟨chainPairs (bucketAt ctx (routeKey ctx key)), j, p, hob, hj, hp, hpk,
        h4⟩
    · rw [get_spec_fields, h1, h2, h4,
        show ctx.hash_cb key % ctx.bucket_num = routeKey ctx key from rfl,
        getD_set_self _ _ _ hblt]
      have hfp : foundPair
          ((chainPairs (bucketAt ctx (routeKey ctx key))).eraseIdx j) key = none := by
        rw [foundPair, hscE]
        rfl
      rw [show chainPairs (some ((chainPairs (bucketAt ctx (routeKey ctx key))).eraseIdx j))
          = (chainPairs (bucketAt ctx (routeKey ctx key))).eraseIdx j from rfl, hfp]
    · rw [has_spec_fields, h1, h2, h4,
        show ctx.hash_cb key % ctx.bucket_num = routeKey ctx key from rfl,
        getD_set_self _ _ _ hblt]
      rw [show chainPairs (some ((chainPairs (bucketAt ctx (routeKey ctx key))).eraseIdx j))
          = (chainPairs (bucketAt ctx (routeKey ctx key))).eraseIdx j from rfl, hscE]
    · intro key2 hne
      have hkm2 : keyMatch p key2 = false := by
        cases hkm : keyMatch p key2 with
        | false => rfl
        | true =>
          have h5 : p.key = key2 := (keyMatch_iff _ _).mp hkm
          rw [hpk] at h5
          exact absurd h5.symm hne
      rw [get_spec_fields, h1, h2, h4, get_spec_fields ctx s2 key2,
        show ctx.hash_cb key2 % ctx.bucket_num = routeKey ctx key2 from rfl]
      by_cases h2i : routeKey ctx key2 = routeKey ctx key
      · rw [h2i, getD_set_self _ _ _ hblt,
          show chainPairs (some ((chainPairs (bucketAt ctx (routeKey ctx key))).eraseIdx j))
            = (chainPairs (bucketAt ctx (routeKey ctx key))).eraseIdx j from rfl,
          show ctx.buckets.getD (routeKey ctx key) none = bucketAt ctx (routeKey ctx key)
            from rfl,
          foundPair_eraseIdx _ j p key2 hp hkm2]
      · rw [getD_set_ne _ _ _ _ h2i]
  · intro habs
    have hmiss := (has_noKey_iff ctx searchCtx0 key).mp habs
    exact drop_miss_spec ctx s key hmiss

/-- A well-formed one-bucket table holding the single pair
`[97] -> [1]`, used to witness C5 and C6. -/
def ctxOnePairW : Ctx :=
  { hash_cb := fun _ => 0, bucket_num := 1, pair_num_max := 0,
    pair_num := 1, buckets := [some [{ key := [97], value := [1] }]] }

/-- C5 witness: the drop behaviour instantiated on a concrete
well-formed one-pair table. -/
theorem bkvs_drop_spec_witness :
    WF ctxOnePairW ∧ DropBehavior ctxOnePairW searchCtx0 searchCtx0 [97] := by
  have hwf : WF ctxOnePairW := by
    refine ⟨⟨by decide, rfl⟩, ?_, ?_, rfl, by decide⟩
    · intro i hi p hp
      have hi1 : i < 1 := hi
      have hi0 : i = 0 := by omega
      subst hi0
      have hp2 : p = { key := [97], value := [1] } := by
        simpa [ctxOnePairW, bucketAt, chainPairs] using hp
      subst hp2
      rfl
    · intro i hi
      have hi1 : i < 1 := hi
      have hi0 : i = 0 := by omega
      subst hi0
      decide
  exact ⟨hwf, bkvs_drop_spec _ _ _ _ hwf⟩


/-
  Claim C6. Put on an existing key updates in place: get yields the new
  value, the stored key is never touched, and the pair count is
  unchanged.
-/

/-- C6: when K is present and the replacement-value allocation
succeeds, `bkvs_put` of (K, V2) succeeds, leaves the pair count
unchanged, makes `bkvs_get` of K yield V2, and only overwrites the
matched pair's value in place - the pair keeps its chain position and
its stored key. -/
theorem bkvs_put_existing_updates_in_place (ctx : Ctx) (s s2 : SearchCtx)
    (key v2 : Bytes) (plan : AllocPlan) (hpl : plan.valueAlloc = true)
    (hpres : (bkvs_has ctx searchCtx0 key).2 = Res.ok) :
    (bkvs_put ctx s key v2 plan).2.2 = Res.ok ∧
    (bkvs_put ctx s key v2 plan).1.pair_num = ctx.pair_num ∧
    (bkvs_get (bkvs_put ctx s key v2 plan).1 s2 key).2 = (Res.ok, some v2) ∧
    (∃ chain j p, bucketAt ctx (routeKey ctx key) = some chain ∧
      searchChain chain key = some j ∧ chain.get? j = some p ∧
      (bkvs_put ctx s key v2 plan).1.buckets =
        ctx.buckets.set (routeKey ctx key) (some (chain.set j { key := p.key, value := v2 }))) := by
  obtain ⟨j, hj⟩ := (has_ok_iff ctx searchCtx0 key).mp hpres
  obtain ⟨p, hp, hm, heq⟩ := put_update_spec ctx s key v2 plan j hpl hj
  have hob := chainPairs_some_of_found _ _ _ hj
  exact ⟨by rw [heq], by rw [heq],
    get_after_put_found ctx s s2 key v2 plan j hpl hj,
    ⟨chainPairs (bucketAt ctx (routeKey ctx key)), j, p, hob, hj, hp, by rw [heq]⟩⟩

/-- C6 witness: the in-place update instantiated on the concrete
one-pair table, overwriting [97]'s value [1] with [7]. -/
theorem bkvs_put_existing_updates_in_place_witness :
    allocOk.valueAlloc = true ∧
    (bkvs_has ctxOnePairW searchCtx0 [97]).2 = Res.ok ∧
    ((bkvs_put ctxOnePairW searchCtx0 [97] [7] allocOk).2.2 = Res.ok ∧
     (bkvs_put ctxOnePairW searchCtx0 [97] [7] allocOk).1.pair_num = ctxOnePairW.pair_num ∧
     (bkvs_get (bkvs_put ctxOnePairW searchCtx0 [97] [7] allocOk).1 searchCtx0 [97]).2
       = (Res.ok, some [7]) ∧
     (∃ chain j p, bucketAt ctxOnePairW (routeKey ctxOnePairW [97]) = some chain ∧
       searchChain chain [97] = some j ∧ chain.get? j = some p ∧
       (bkvs_put ctxOnePairW searchCtx0 [97] [7] allocOk).1.buckets =
         ctxOnePairW.buckets.set (routeKey ctxOnePairW [97])
           (some (chain.set j { key := p.key, value := [7] })))) := by
  have hpres : (bkvs_has ctxOnePairW searchCtx0 [97]).2 = Res.ok := rfl
  exact ⟨rfl, hpres,
    bkvs_put_existing_updates_in_place ctxOnePairW searchCtx0 searchCtx0 [97] [7] allocOk
      rfl hpres⟩

/-
  Claim C10. Update-in-place frame property: put on an existing key
  mutates only that pair's value, so the foreach visitation order of
  keys is invariant under any sequence of updates to existing keys.
-/

/-- The per-bucket key lists of a table: its shape as far as lookup
routing and visitation order are concerned. -/
def keyShape (ctx : Ctx) : List (Option (List Bytes)) :=
  ctx.buckets.map (Option.map (List.map Pair.key))

/-- The keys of a table in `bkvs_foreach` visitation order. -/
def visitKeys (ctx : Ctx) : List Bytes := (allPairs ctx).map Pair.key

/-- A put with every allocation succeeding, threaded for sequencing. -/
def putTable (ctx : Ctx) (kv : Bytes × Bytes) : Ctx :=
  (bkvs_put ctx searchCtx0 kv.1 kv.2 allocOk).1

lemma getD_map_key (l : List (Option Chain)) (i : Nat) :
    (l.map (Option.map (List.map Pair.key))).getD i none =
      Option.map (List.map Pair.key) (l.getD i none) := by
  induction l generalizing i with
  | nil => simp
  | cons b rest ih =>
    cases i with
    | zero => simp
    | succ i2 => simpa using ih i2

lemma chainPairs_map_key_congr (oa ob : Option Chain)
    (h : Option.map (List.map Pair.key) oa = Option.map (List.map Pair.key) ob) :
    (chainPairs oa).map Pair.key = (chainPairs ob).map Pair.key := by
  cases oa <;> cases ob <;> simp_all [chainPairs]

lemma search_eq_of_keyShape (a b : Ctx) (hcb : a.hash_cb = b.hash_cb)
    (hbn : a.bucket_num = b.bucket_num) (hks : keyShape a = keyShape b) (key : Bytes) :
    searchChain (chainPairs (bucketAt a (routeKey a key))) key =
      searchChain (chainPairs (bucketAt b (routeKey b key))) key := by
  have hru : routeKey a key = routeKey b key := by rw [routeKey, routeKey, hcb, hbn]
  rw [hru]
  apply searchChain_keys_congr
  apply chainPairs_map_key_congr
  rw [show (bucketAt a (routeKey b key)) = a.buckets.getD (routeKey b key) none from rfl,
    show (bucketAt b (routeKey b key)) = b.buckets.getD (routeKey b key) none from rfl,
    ← getD_map_key, ← getD_map_key,
    show a.buckets.map (Option.map (List.map Pair.key)) = keyShape a from rfl,
    show b.buckets.map (Option.map (List.map Pair.key)) = keyShape b from rfl, hks]

lemma has_eq_of_keyShape (a b : Ctx) (hcb : a.hash_cb = b.hash_cb)
    (hbn : a.bucket_num = b.bucket_num) (hks : keyShape a = keyShape b) (key : Bytes) :
    (bkvs_has a searchCtx0 key).2 = (bkvs_has b searchCtx0 key).2 := by
  rw [has_spec, has_spec, search_eq_of_keyShape a b hcb hbn hks key]

lemma visitKeys_eq_flat (ctx : Ctx) :
    visitKeys ctx = (keyShape ctx).flatMap (fun o => o.getD []) := by
  rw [visitKeys, allPairs, keyShape, List.map_flatMap, List.flatMap_map]
  congr 1
  funext ob
  cases ob <;> simp [chainPairs]

lemma visitKeys_eq_of_keyShape (a b : Ctx) (h : keyShape a = keyShape b) :
    visitKeys a = visitKeys b := by
  rw [visitKeys_eq_flat, visitKeys_eq_flat, h]

lemma put_update_fields (ctx : Ctx) (s : SearchCtx) (key value : Bytes)
    (plan : AllocPlan) (j : Nat) (hpl : plan.valueAlloc = true)
    (hj : searchChain (chainPairs (bucketAt ctx (routeKey ctx key))) key = some j) :
    keyShape (bkvs_put ctx s key value plan).1 = keyShape ctx ∧
    (bkvs_put ctx s key value plan).1.hash_cb = ctx.hash_cb ∧
    (bkvs_put ctx s key value plan).1.bucket_num = ctx.bucket_num ∧
    (bkvs_put ctx s key value plan).1.pair_num = ctx.pair_num ∧
    (bkvs_put ctx s key value plan).2.2 = Res.ok := by
  obtain ⟨p, hp, hm, heq⟩ := put_update_spec ctx s key value plan j hpl hj
  have hob := chainPairs_some_of_found _ _ _ hj
  have h4 : (bkvs_put ctx s key value plan).1.buckets =
      ctx.buckets.set (routeKey ctx key)
        (some ((chainPairs (bucketAt ctx (routeKey ctx key))).set j
          { key := p.key, value := value })) := by rw [heq]
  refine ⟨?_, by rw [heq], by rw [heq], by rw [heq], by rw [heq]⟩
  rw [keyShape, h4, List.map_set]
  rw [show Option.map (List.map Pair.key)
      (some ((chainPairs (bucketAt ctx (routeKey ctx key))).set j
        { key := p.key, value := value }))
      = some ((chainPairs (bucketAt ctx (routeKey ctx key))).map Pair.key) from by
    simp [map_key_set _ _ _ _ hp]]
  apply set_same
  rw [List.get?_map, get?_of_getD_some ctx.buckets (routeKey ctx key)
    (chainPairs (bucketAt ctx (routeKey ctx key))) hob]
  rfl

lemma fold_updates_shape (upds : List (Bytes × Bytes)) :
    ∀ ctx : Ctx, (∀ kv ∈ upds, (bkvs_has ctx searchCtx0 kv.1).2 = Res.ok) →
      keyShape (upds.foldl putTable ctx) = keyShape ctx ∧
      (upds.foldl putTable ctx).hash_cb = ctx.hash_cb ∧
      (upds.foldl putTable ctx).bucket_num = ctx.bucket_num := by
  induction upds with
  | nil => exact fun ctx h => ⟨rfl, rfl, rfl⟩
  | cons kv rest ih =>
    intro ctx h
    have hpres := h kv (List.mem_cons_self _ _)
    obtain ⟨j, hj⟩ := (has_ok_iff ctx searchCtx0 kv.1).mp hpres
    have hstep := put_update_fields ctx searchCtx0 kv.1 kv.2 allocOk j rfl hj
    have hks : keyShape (putTable ctx kv) = keyShape ctx := hstep.1
    have hcb : (putTable ctx kv).hash_cb = ctx.hash_cb := hstep.2.1
    have hbn : (putTable ctx kv).bucket_num = ctx.bucket_num := hstep.2.2.1
    have hrest : ∀ kv2 ∈ rest, (bkvs_has (putTable ctx kv) searchCtx0 kv2.1).2 = Res.ok := by
      intro kv2 hmem
      rw [has_eq_of_keyShape (putTable ctx kv) ctx hcb hbn hks kv2.1]
      exact h kv2 (List.mem_cons_of_mem _ hmem)
    have hfold := ih (putTable ctx kv) hrest
    simp only [List.foldl_cons]
    exact ⟨hfold.1.trans hks, hfold.2.1.trans hcb, hfold.2.2.trans hbn⟩

/-- C10: a put on an existing key mutates only that pair's value in
place - the result is the old bucket array with the matched pair's
value field replaced at its original chain position, the key kept, no
chain grown or shrunk, the pair count unchanged, and the per-bucket
key shape identical; consequently the key sequence `bkvs_foreach`
visits is unchanged by any sequence of all-successful puts on keys
present in the table. -/
theorem put_update_frame (ctx : Ctx) :
    (∀ (s : SearchCtx) (key value : Bytes) (plan : AllocPlan),
      plan.valueAlloc = true →
      (bkvs_has ctx searchCtx0 key).2 = Res.ok →
      (bkvs_put ctx s key value plan).2.2 = Res.ok ∧
      (bkvs_put ctx s key value plan).1.pair_num = ctx.pair_num ∧
      (bkvs_put ctx s key value plan).1.hash_cb = ctx.hash_cb ∧
      (bkvs_put ctx s key value plan).1.bucket_num = ctx.bucket_num ∧
      (∃ chain j p, bucketAt ctx (routeKey ctx key) = some chain ∧
        searchChain chain key = some j ∧ chain.get? j = some p ∧
        (bkvs_put ctx s key value plan).1.buckets =
          ctx.buckets.set (routeKey ctx key)
            (some (chain.set j { key := p.key, value := value }))) ∧
      keyShape (bkvs_put ctx s key value plan).1 = keyShape ctx ∧
      visitKeys (bkvs_put ctx s key value plan).1 = visitKeys ctx) ∧
    (∀ upds : List (Bytes × Bytes),
      (∀ kv ∈ upds, (bkvs_has ctx searchCtx0 kv.1).2 = Res.ok) →
      visitKeys (upds.foldl putTable ctx) = visitKeys ctx) := by
  constructor
  · intro s key value plan hpl hpres
    obtain ⟨j, hj⟩ := (has_ok_iff ctx searchCtx0 key).mp hpres
    obtain ⟨p, hp, hm, heq⟩ := put_update_spec ctx s key value plan j hpl hj
    have hob := chainPairs_some_of_found _ _ _ hj
    have hfields := put_update_fields ctx s key value plan j hpl hj
    exact ⟨hfields.2.2.2.2, hfields.2.2.2.1, hfields.2.1, hfields.2.2.1,
      ⟨chainPairs (bucketAt ctx (routeKey ctx key)), j, p, hob, hj, hp, by rw [heq]⟩,
      hfields.1,
      visitKeys_eq_of_keyShape _ _ hfields.1⟩
  · intro upds hall
    exact visitKeys_eq_of_keyShape _ _ (fold_updates_shape upds ctx hall).1

/-- C10 witness: the frame property instantiated on the concrete
one-pair table, updating key [97] to value [9], alone and as a
one-element update sequence. -/
theorem put_update_frame_witness :
    allocOk.valueAlloc = true ∧
    (bkvs_has ctxOnePairW searchCtx0 [97]).2 = Res.ok ∧
    ((bkvs_put ctxOnePairW searchCtx0 [97] [9] allocOk).2.2 = Res.ok ∧
     (bkvs_put ctxOnePairW searchCtx0 [97] [9] allocOk).1.pair_num = ctxOnePairW.pair_num ∧
     (bkvs_put ctxOnePairW searchCtx0 [97] [9] allocOk).1.hash_cb = ctxOnePairW.hash_cb ∧
     (bkvs_put ctxOnePairW searchCtx0 [97] [9] allocOk).1.bucket_num = ctxOnePairW.bucket_num ∧
     (∃ chain j p, bucketAt ctxOnePairW (routeKey ctxOnePairW [97]) = some chain ∧
       searchChain chain [97] = some j ∧ chain.get? j = some p ∧
       (bkvs_put ctxOnePairW searchCtx0 [97] [9] allocOk).1.buckets =
         ctxOnePairW.buckets.set (routeKey ctxOnePairW [97])
           (some (chain.set j { key := p.key, value := [9] }))) ∧
     keyShape (bkvs_put ctxOnePairW searchCtx0 [97] [9] allocOk).1 = keyShape ctxOnePairW ∧
     visitKeys (bkvs_put ctxOnePairW searchCtx0 [97] [9] allocOk).1 = visitKeys ctxOnePairW) ∧
    visitKeys ([(([97] : Bytes), ([9] : Bytes))].foldl putTable ctxOnePairW) =
      visitKeys ctxOnePairW := by
  have hpres : (bkvs_has ctxOnePairW searchCtx0 [97]).2 = Res.ok := rfl
  refine ⟨rfl, hpres,
    (put_update_frame ctxOnePairW).1 searchCtx0 [97] [9] allocOk rfl hpres,
    (put_update_frame ctxOnePairW).2 [([97], [9])] ?_⟩
  intro kv hmem
  rw [List.mem_singleton] at hmem
  subst hmem
  exact hpres


end BufferKVS
